import Mathlib

/-!
Verification of the CHIP-8 interpreter core (`src/core/src/instructions.rs` and
`src/core/src/program.rs`) against its natural-language specification.

The Rust code is shallowly embedded:
* machine integers are `Nat` with explicit `% 2^w` (or `&&&` masks) where the
  Rust code truncates or wraps;
* the fixed arrays (`memory : [u8; 4096]`, `v : [u8; 16]`, `stack : [u16; 16]`,
  `keypad : [bool; 16]`, `screen : [[bool; 64]; 32]`) are embedded as total
  functions with explicit bound checks at every indexing site where the index
  is not statically below the array length; a Rust panic (out-of-bounds index,
  `u8` underflow in a debug build followed by an out-of-bounds index in a
  release build, or the explicit `panic!` of `InvalidInstruction::run`) is
  modelled as the result `none`;
* the `instructions!` macro's `From<u16> for Instruction` match is embedded as
  an ordered if-cascade over the four nibbles (first matching arm wins, as in a
  Rust `match`), and each generated `run` method as one arm of
  `Instruction.run`.
-/

namespace Chip8

/-- Cursor returned by executing one instruction (`src/core/src/program.rs`). -/
inductive Cursor where
  | Stay : Cursor
  | Next : Cursor
  | Skip : Cursor
  | Jump : Nat → Cursor
deriving DecidableEq

/-- Helper `fn value(y: u8, n: u8) -> u8`: `((y << 4) & 0xF0) | (n & 0xF)`. -/
def value (y n : Nat) : Nat :=
  ((y <<< 4) &&& 0xF0) ||| (n &&& 0xF)

/-- Helper `fn address(x: u8, y: u8, n: u8) -> u16`: `(((x as u16) << 8) & 0xF00) | value(y, n) as u16`. -/
def address (x y n : Nat) : Nat :=
  ((x <<< 8) &&& 0xF00) ||| value y n

/-- The 35 instruction structs generated by the `instructions!` macro, plus the
`InvalidInstruction` fallback.  Each constructor carries exactly the fields of
the corresponding Rust struct. -/
inductive Instruction where
  | Clear : Instruction
  | ReturnSubroutine : Instruction
  | JumpTo : Nat → Instruction
  | CallSubroutine : Nat → Instruction
  | SkipEqual : Nat → Nat → Instruction
  | SkipNotEqual : Nat → Nat → Instruction
  | SkipRegisterEqual : Nat → Nat → Instruction
  | SetRegister : Nat → Nat → Instruction
  | AddRegister : Nat → Nat → Instruction
  | SetVxToVy : Nat → Nat → Instruction
  | SetVxToVxOrVy : Nat → Nat → Instruction
  | SetVxToVxAndVy : Nat → Nat → Instruction
  | SetVxToVxXorVy : Nat → Nat → Instruction
  | SetVxToVxAndVyCarry : Nat → Nat → Instruction
  | SetVxToVxSubVy : Nat → Nat → Instruction
  | SetVxToVxShr : Nat → Instruction
  | SetVxToVySubVx : Nat → Nat → Instruction
  | SetVxToVxShl : Nat → Instruction
  | SkipRegisterNotEqual : Nat → Nat → Instruction
  | SetIToAddress : Nat → Instruction
  | JumpToPlusV0 : Nat → Instruction
  | SetVxToRandomAndValue : Nat → Nat → Instruction
  | Draw : Nat → Nat → Nat → Instruction
  | SkipKeyPressed : Nat → Instruction
  | SkipKeyNotPressed : Nat → Instruction
  | SetVxToDelayTimer : Nat → Instruction
  | SetVxToNextKeyPress : Nat → Instruction
  | SetDelayTimerToVx : Nat → Instruction
  | SetSoundTimerToVx : Nat → Instruction
  | AddVxToI : Nat → Instruction
  | SetIToSpriteLocation : Nat → Instruction
  | StoreBCD : Nat → Instruction
  | StoreRegisters : Nat → Instruction
  | ReadRegisters : Nat → Instruction
  | InvalidInstruction : Nat → Nat → Nat → Nat → Instruction
deriving DecidableEq

/-- The match of `impl From<u16> for Instruction`, over the four nibbles
`(a, b, c, d)` from most to least significant.  The if-cascade preserves the
order of the Rust match arms (first match wins). -/
def decodeNibbles (a b c d : Nat) : Instruction :=
  if a = 0x0 ∧ b = 0x0 ∧ c = 0xE ∧ d = 0x0 then .Clear
  else if a = 0x0 ∧ b = 0x0 ∧ c = 0xE ∧ d = 0xE then .ReturnSubroutine
  else if a = 0x1 then .JumpTo (address b c d)
  else if a = 0x2 then .CallSubroutine (address b c d)
  else if a = 0x3 then .SkipEqual b (value c d)
  else if a = 0x4 then .SkipNotEqual b (value c d)
  else if a = 0x5 ∧ d = 0x0 then .SkipRegisterEqual b c
  else if a = 0x6 then .SetRegister b (value c d)
  else if a = 0x7 then .AddRegister b (value c d)
  else if a = 0x8 ∧ d = 0x0 then .SetVxToVy b c
  else if a = 0x8 ∧ d = 0x1 then .SetVxToVxOrVy b c
  else if a = 0x8 ∧ d = 0x2 then .SetVxToVxAndVy b c
  else if a = 0x8 ∧ d = 0x3 then .SetVxToVxXorVy b c
  else if a = 0x8 ∧ d = 0x4 then .SetVxToVxAndVyCarry b c
  else if a = 0x8 ∧ d = 0x5 then .SetVxToVxSubVy b c
  else if a = 0x8 ∧ d = 0x6 then .SetVxToVxShr b
  else if a = 0x8 ∧ d = 0x7 then .SetVxToVySubVx b c
  else if a = 0x8 ∧ d = 0xE then .SetVxToVxShl b
  else if a = 0x9 ∧ d = 0x0 then .SkipRegisterNotEqual b c
  else if a = 0xA then .SetIToAddress (address b c d)
  else if a = 0xB then .JumpToPlusV0 (address b c d)
  else if a = 0xC then .SetVxToRandomAndValue b (value c d)
  else if a = 0xD then .Draw b c d
  else if a = 0xE ∧ c = 0x9 ∧ d = 0xE then .SkipKeyPressed b
  else if a = 0xE ∧ c = 0xA ∧ d = 0x1 then .SkipKeyNotPressed b
  else if a = 0xF ∧ c = 0x0 ∧ d = 0x7 then .SetVxToDelayTimer b
  else if a = 0xF ∧ c = 0x0 ∧ d = 0x4 then .SetVxToNextKeyPress b
  else if a = 0xF ∧ c = 0x1 ∧ d = 0x5 then .SetDelayTimerToVx b
  else if a = 0xF ∧ c = 0x1 ∧ d = 0x8 then .SetSoundTimerToVx b
  else if a = 0xF ∧ c = 0x1 ∧ d = 0xE then .AddVxToI b
  else if a = 0xF ∧ c = 0x2 ∧ d = 0x9 then .SetIToSpriteLocation b
  else if a = 0xF ∧ c = 0x3 ∧ d = 0x3 then .StoreBCD b
  else if a = 0xF ∧ c = 0x5 ∧ d = 0x5 then .StoreRegisters b
  else if a = 0xF ∧ c = 0x6 ∧ d = 0x5 then .ReadRegisters b
  else .InvalidInstruction a b c d

/-- First nibble: `((code & 0xF000) >> 12) as u8`. -/
def nib0 (code : Nat) : Nat := (code &&& 0xF000) >>> 12

/-- Second nibble: `((code & 0x0F00) >> 8) as u8`. -/
def nib1 (code : Nat) : Nat := (code &&& 0x0F00) >>> 8

/-- Third nibble: `((code & 0x00F0) >> 4) as u8`. -/
def nib2 (code : Nat) : Nat := (code &&& 0x00F0) >>> 4

/-- Fourth nibble: `(code & 0x000F) as u8`. -/
def nib3 (code : Nat) : Nat := code &&& 0x000F

/-- Decoder `impl From<u16> for Instruction`: split into four nibbles and dispatch. -/
def decode (code : Nat) : Instruction :=
  decodeNibbles (nib0 code) (nib1 code) (nib2 code) (nib3 code)

/-- The defined opcode patterns of the decoder, as a flat predicate over the
four nibbles: the disjunction of the conditions of all 35 non-fallback match
arms. -/
def definedNibbles (a b c d : Nat) : Prop :=
  (a = 0x0 ∧ b = 0x0 ∧ c = 0xE ∧ d = 0x0) ∨
  (a = 0x0 ∧ b = 0x0 ∧ c = 0xE ∧ d = 0xE) ∨
  a = 0x1 ∨ a = 0x2 ∨ a = 0x3 ∨ a = 0x4 ∨
  (a = 0x5 ∧ d = 0x0) ∨
  a = 0x6 ∨ a = 0x7 ∨
  (a = 0x8 ∧ (d = 0x0 ∨ d = 0x1 ∨ d = 0x2 ∨ d = 0x3 ∨ d = 0x4 ∨ d = 0x5 ∨
    d = 0x6 ∨ d = 0x7 ∨ d = 0xE)) ∨
  (a = 0x9 ∧ d = 0x0) ∨
  a = 0xA ∨ a = 0xB ∨ a = 0xC ∨ a = 0xD ∨
  (a = 0xE ∧ c = 0x9 ∧ d = 0xE) ∨
  (a = 0xE ∧ c = 0xA ∧ d = 0x1) ∨
  (a = 0xF ∧ ((c = 0x0 ∧ d = 0x7) ∨ (c = 0x0 ∧ d = 0x4) ∨ (c = 0x1 ∧ d = 0x5) ∨
    (c = 0x1 ∧ d = 0x8) ∨ (c = 0x1 ∧ d = 0xE) ∨ (c = 0x2 ∧ d = 0x9) ∨
    (c = 0x3 ∧ d = 0x3) ∨ (c = 0x5 ∧ d = 0x5) ∨ (c = 0x6 ∧ d = 0x5)))

instance (a b c d : Nat) : Decidable (definedNibbles a b c d) := by
  unfold definedNibbles
  infer_instance

/-- A 16-bit word matches one of the decoder's defined opcode patterns. -/
def definedOpcode (code : Nat) : Prop :=
  definedNibbles (nib0 code) (nib1 code) (nib2 code) (nib3 code)

instance (code : Nat) : Decidable (definedOpcode code) := by
  unfold definedOpcode
  infer_instance

/-- Pointwise update of an embedded array of numbers (`arr[k] = v`). -/
def upd (f : Nat → Nat) (k v : Nat) : Nat → Nat :=
  fun j => if j = k then v else f j

/-- Pointwise update of the embedded screen (`screen[r][c] = b`). -/
def updS (s : Nat → Nat → Bool) (r c : Nat) (b : Bool) : Nat → Nat → Bool :=
  fun r' c' => if r' = r ∧ c' = c then b else s r' c'

/-- The built-in hexadecimal sprite glyphs (`SPRITES` in `program.rs`),
flattened to the 80 bytes they occupy at the bottom of memory. -/
def SPRITES : List Nat :=
  [0xF0, 0x90, 0x90, 0x90, 0xF0,
   0x20, 0x60, 0x20, 0x20, 0x70,
   0xF0, 0x10, 0xF0, 0x80, 0xF0,
   0xF0, 0x10, 0xF0, 0x10, 0xF0,
   0x90, 0x90, 0xF0, 0x10, 0x10,
   0xF0, 0x80, 0xF0, 0x10, 0xF0,
   0xF0, 0x80, 0xF0, 0x90, 0xF0,
   0xF0, 0x10, 0x20, 0x40, 0x40,
   0xF0, 0x90, 0xF0, 0x90, 0xF0,
   0xF0, 0x90, 0xF0, 0x10, 0xF0,
   0xF0, 0x90, 0xF0, 0x90, 0x90,
   0xE0, 0x90, 0xE0, 0x90, 0xE0,
   0xF0, 0x80, 0x80, 0x80, 0xF0,
   0xE0, 0x90, 0x90, 0x90, 0xE0,
   0xF0, 0x80, 0xF0, 0x80, 0xF0,
   0xF0, 0x80, 0xF0, 0x80, 0x80]

/-- The `Program` struct of `src/core/src/program.rs`.  The fixed-size arrays
are embedded as total functions (only indices below the Rust array length are
meaningful; every indexing site whose index is not statically in bounds is
bound-checked in the operations below).  The thread-local random generator is
embedded as an injected stream `rng` together with a consumption counter. -/
structure Program where
  memory : Nat → Nat
  v : Nat → Nat
  i : Nat
  delay_timer : Nat
  sound_timer : Nat
  program_counter : Nat
  stack_pointer : Nat
  keypad : Nat → Bool
  screen : Nat → Nat → Bool
  stack : Nat → Nat
  rng : Nat → Nat
  rng_used : Nat

/-- Constructor `Program::new()`: sprite glyphs in the first 80 bytes, everything else
zeroed, program counter at `0x200`. -/
def Program.new (rng : Nat → Nat) : Program where
  memory := fun addr => SPRITES.getD addr 0
  v := fun _ => 0
  i := 0
  delay_timer := 0
  sound_timer := 0
  program_counter := 0x200
  stack_pointer := 0
  keypad := fun _ => false
  screen := fun _ _ => false
  stack := fun _ => 0
  rng := rng
  rng_used := 0

/-- Loader `Program::load`: copy the ROM bytes (zero-padded) into memory starting at
`0x200`, never past the 4096-byte limit. -/
def Program.load (p : Program) (data : List Nat) : Program :=
  { p with
    memory := fun addr =>
      if 0x200 ≤ addr ∧ addr < 4096 then data.getD (addr - 0x200) 0
      else p.memory addr }

/-- Host call `Program::keydown` (the code does not check the key index; see the TODO
in the source). -/
def Program.keydown (p : Program) (key : Nat) : Program :=
  { p with keypad := fun j => if j = key then true else p.keypad j }

/-- Host call `Program::keyup`. -/
def Program.keyup (p : Program) (key : Nat) : Program :=
  { p with keypad := fun j => if j = key then false else p.keypad j }

/-- Sprite bit extraction `let bit = ((byte >> (7 - bit)) & 1) == 1`: the sprite bit of `byteVal`
at column `bit`, most significant bit first. -/
def bitAt (byteVal bit : Nat) : Bool :=
  decide ((byteVal >>> (7 - bit)) &&& 1 = 1)

/-- One iteration of the inner loop of `Draw::run`
(`for bit in 0..8 { ... }`), acting on the pair of the register file and the
screen.  `y` is the row computed by the enclosing iteration and `byteVal` the
sprite byte it fetched. -/
def drawBitStep (sx byteVal y bit : Nat)
    (st : (Nat → Nat) × (Nat → Nat → Bool)) : (Nat → Nat) × (Nat → Nat → Bool) :=
  let x := (st.1 sx + bit) % 64
  let b := bitAt byteVal bit
  let vf := st.1 0xF ||| (if b && st.2 y x then 1 else 0)
  (upd st.1 0xF vf, updS st.2 y x (xor (st.2 y x) b))

/-- The inner loop of `Draw::run`, having executed the iterations
`bit = 0, …, k-1` (so `drawRowAux … 8` is the full `for bit in 0..8`). -/
def drawRowAux (sx byteVal y : Nat) (st : (Nat → Nat) × (Nat → Nat → Bool)) :
    Nat → (Nat → Nat) × (Nat → Nat → Bool)
  | 0 => st
  | bit + 1 => drawBitStep sx byteVal y bit (drawRowAux sx byteVal y st bit)

/-- The outer loop of `Draw::run`, having executed the iterations
`byte = 0, …, k-1`.  Each iteration recomputes the row from the current
register file (`(program.v[self.y] as usize + byte) % 32`) and fetches the
sprite byte at `i + byte`. -/
def drawRowsAux (sx sy iReg : Nat) (mem : Nat → Nat)
    (st : (Nat → Nat) × (Nat → Nat → Bool)) :
    Nat → (Nat → Nat) × (Nat → Nat → Bool)
  | 0 => st
  | row + 1 =>
    let st' := drawRowsAux sx sy iReg mem st row
    drawRowAux sx (mem (iReg + row)) ((st'.1 sy + row) % 32) st' 8

/-- The loop of `StoreRegisters::run` (`for i in 0..=x`), returning the
updated memory. -/
def storeRegsAux (v mem : Nat → Nat) (iReg : Nat) : Nat → Nat → Nat
  | 0 => upd mem iReg (v 0)
  | k + 1 => upd (storeRegsAux v mem iReg k) (iReg + (k + 1)) (v (k + 1))

/-- The loop of `ReadRegisters::run` (`for i in 0..=x`), returning the
updated register file. -/
def readRegsAux (v mem : Nat → Nat) (iReg : Nat) : Nat → Nat → Nat
  | 0 => upd v 0 (mem iReg)
  | k + 1 => upd (readRegsAux v mem iReg k) (k + 1) (mem (iReg + (k + 1)))

/-- The `run` methods generated by the `instructions!` macro, one arm per
instruction.  The result is `none` exactly when the Rust code panics at this
point: an out-of-bounds array index, the `u8` subtraction overflow of
`ReturnSubroutine` (which panics in a debug build, and in a release build
wraps to 255 and then panics on the out-of-bounds `stack[255]`), or the
explicit `panic!` of `InvalidInstruction::run`.  Machine-integer wraparound
that Rust performs silently (`as u8` casts, `wrapping_sub`, `u16` shifts) is
`% 256` / `% 65536` arithmetic. -/
def Instruction.run (ins : Instruction) (p : Program) : Option (Program × Cursor) :=
  match ins with
  | .Clear => some ({ p with screen := fun _ _ => false }, .Next)
  | .ReturnSubroutine =>
    if p.stack_pointer = 0 then none
    else if p.stack_pointer - 1 < 16 then
      some ({ p with stack_pointer := p.stack_pointer - 1 },
        .Jump (p.stack (p.stack_pointer - 1)))
    else none
  | .JumpTo a => some (p, .Jump a)
  | .CallSubroutine a =>
    if p.stack_pointer < 16 then
      some ({ p with
        stack := upd p.stack p.stack_pointer ((p.program_counter + 2) % 65536),
        stack_pointer := p.stack_pointer + 1 }, .Jump a)
    else none
  | .SkipEqual x k => some (p, if p.v x = k then .Skip else .Next)
  | .SkipNotEqual x k => some (p, if p.v x ≠ k then .Skip else .Next)
  | .SkipRegisterEqual x y => some (p, if p.v x = p.v y then .Skip else .Next)
  | .SetRegister x k => some ({ p with v := upd p.v x k }, .Next)
  | .AddRegister x k => some ({ p with v := upd p.v x ((p.v x + k) % 256) }, .Next)
  | .SetVxToVy x y => some ({ p with v := upd p.v x (p.v y) }, .Next)
  | .SetVxToVxOrVy x y => some ({ p with v := upd p.v x (p.v x ||| p.v y) }, .Next)
  | .SetVxToVxAndVy x y => some ({ p with v := upd p.v x (p.v x &&& p.v y) }, .Next)
  | .SetVxToVxXorVy x y => some ({ p with v := upd p.v x (p.v x ^^^ p.v y) }, .Next)
  | .SetVxToVxAndVyCarry x y =>
    let result := p.v x + p.v y
    let v1 := upd p.v x (result % 256)
    some ({ p with v := upd v1 0xF (if 0xFF < result then 1 else 0) }, .Next)
  | .SetVxToVxSubVy x y =>
    let v1 := upd p.v 0xF (if p.v y < p.v x then 1 else 0)
    some ({ p with v := upd v1 x ((v1 x + 256 - v1 y) % 256) }, .Next)
  | .SetVxToVxShr x =>
    let v1 := upd p.v 0xF (p.v x &&& 1)
    some ({ p with v := upd v1 x (v1 x >>> 1) }, .Next)
  | .SetVxToVySubVx x y =>
    let v1 := upd p.v 0xF (if p.v x < p.v y then 1 else 0)
    some ({ p with v := upd v1 x ((v1 y + 256 - v1 x) % 256) }, .Next)
  | .SetVxToVxShl x =>
    let v1 := upd p.v 0xF ((p.v x >>> 7) &&& 1)
    some ({ p with v := upd v1 x ((v1 x <<< 1) % 256) }, .Next)
  | .SkipRegisterNotEqual x y => some (p, if p.v x ≠ p.v y then .Skip else .Next)
  | .SetIToAddress a => some ({ p with i := a }, .Next)
  | .JumpToPlusV0 a => some (p, .Jump (p.v 0 + a))
  | .SetVxToRandomAndValue x k =>
    some ({ p with
      v := upd p.v x ((p.rng p.rng_used % 256) &&& k),
      rng_used := p.rng_used + 1 }, .Next)
  | .Draw x y n =>
    if n = 0 ∨ p.i + n ≤ 4096 then
      let st := drawRowsAux x y p.i p.memory (upd p.v 0xF 0, p.screen) n
      some ({ p with v := st.1, screen := st.2 }, .Next)
    else none
  | .SkipKeyPressed x =>
    if p.v x < 16 then some (p, if p.keypad (p.v x) then .Skip else .Next)
    else none
  | .SkipKeyNotPressed x =>
    if p.v x < 16 then some (p, if ¬ p.keypad (p.v x) then .Skip else .Next)
    else none
  | .SetVxToDelayTimer x => some ({ p with v := upd p.v x p.delay_timer }, .Next)
  | .SetVxToNextKeyPress x =>
    match (List.range 16).find? (fun k => p.keypad k) with
    | some k => some ({ p with v := upd p.v x k }, .Next)
    | none => some (p, .Stay)
  | .SetDelayTimerToVx x => some ({ p with delay_timer := p.v x }, .Next)
  | .SetSoundTimerToVx x => some ({ p with sound_timer := p.v x }, .Next)
  | .AddVxToI x => some ({ p with i := (p.i + p.v x) % 65536 }, .Next)
  | .SetIToSpriteLocation x => some ({ p with i := p.v x * 5 }, .Next)
  | .StoreBCD x =>
    if p.i + 2 ≤ 4095 then
      let mem1 := upd p.memory p.i (p.v x / 100)
      let mem2 := upd mem1 (p.i + 1) (p.v x % 100 / 10)
      some ({ p with memory := upd mem2 (p.i + 2) (p.v x % 10) }, .Next)
    else none
  | .StoreRegisters x =>
    if p.i + x ≤ 4095 then
      some ({ p with memory := storeRegsAux p.v p.memory p.i x }, .Next)
    else none
  | .ReadRegisters x =>
    if p.i + x ≤ 4095 then
      some ({ p with v := readRegsAux p.v p.memory p.i x }, .Next)
    else none
  | .InvalidInstruction _ _ _ _ => none

/-- Fetch `Program::instruction`: read the big-endian 16-bit word at the program
counter and decode it; `none` models the panic of the out-of-bounds slice
`memory[counter..=counter+1]`. -/
def Program.instruction (p : Program) : Option Instruction :=
  if p.program_counter + 1 ≤ 4095 then
    some (decode ((p.memory p.program_counter <<< 8) |||
      p.memory (p.program_counter + 1)))
  else none

/-- Applying the `Cursor` returned by an instruction to the program counter
(the match at the end of `Program::run`). -/
def applyCursor (p : Program) : Cursor → Program
  | .Stay => p
  | .Next => { p with program_counter := (p.program_counter + 2) % 65536 }
  | .Skip => { p with program_counter := (p.program_counter + 4) % 65536 }
  | .Jump a => { p with program_counter := a }

/-- Step `Program::run`: fetch, decode, execute, apply the cursor. -/
def Program.run (p : Program) : Option Program :=
  match p.instruction with
  | none => none
  | some ins =>
    match ins.run p with
    | none => none
    | some (p', cur) => some (applyCursor p' cur)

/-- Iterated stepping: `m` repetitions of `Program::run` (the host's step loop). -/
def iterRun : Nat → Program → Option Program
  | 0, p => some p
  | m + 1, p =>
    match Program.run p with
    | none => none
    | some p' => iterRun m p'

/-- Post-state extractor for concrete executions: the state after running one
instruction (the input state if the instruction panics).  Used only to state
closed theorems about concrete inputs. -/
def execOut (ins : Instruction) (p : Program) : Program :=
  match ins.run p with
  | some (q, _) => q
  | none => p

/-- Cursor extractor for concrete executions (`Cursor.Stay` if the
instruction panics). -/
def execCursor (ins : Instruction) (p : Program) : Cursor :=
  match ins.run p with
  | some (_, c) => c
  | none => .Stay

/-- Post-state extractor for one `Program::run` step on concrete inputs. -/
def stepOut (p : Program) : Program :=
  match p.run with
  | some q => q
  | none => p

/-- A fixed all-zero random stream, used for the concrete states below. -/
def rng0 : Nat → Nat := fun _ => 0

/-- Concrete state for the C3 witness: V1 = 200, V2 = 100. -/
def c3w : Program := { Program.new rng0 with v := upd (upd (fun _ => 0) 1 200) 2 100 }

/-- Concrete state for the C4 counterexample: V0 = 200, VF = 100. -/
def c4p : Program := { Program.new rng0 with v := upd (upd (fun _ => 0) 0 200) 0xF 100 }

/-- Concrete state for the C4 witness: V1 = 100, V2 = 200. -/
def c4w : Program := { Program.new rng0 with v := upd (upd (fun _ => 0) 1 100) 2 200 }

/-- Concrete state for the C8 counterexample: V0 = 16 (first out-of-range
key index). -/
def c8p : Program := { Program.new rng0 with v := upd (fun _ => 0) 0 16 }

/-- Concrete state for the C10 counterexample and witness: VF = 200,
V0 = 100. -/
def c10p : Program := { Program.new rng0 with v := upd (upd (fun _ => 0) 0xF 200) 0 100 }

/-- Concrete state for the C9 counterexample: the two-byte ROM `0x12 0x01`
(opcode `1201`, jump to the odd address `0x201`). -/
def c9p : Program := (Program.new rng0).load [0x12, 0x01]

/-- Concrete state for the C7 witness: the ROM `0xF1 0x04` (BlockForKey into
V1) with key 7 pressed. -/
def c7w : Program := ((Program.new rng0).load [0xF1, 0x04]).keydown 7

instance decidableBexLT (k : Nat) (P : Nat → Prop) [DecidablePred P] :
    Decidable (∃ n, n < k ∧ P n) :=
  decidable_of_iff ((List.range k).any fun n => decide (P n)) (by
    simp [List.any_eq_true, List.mem_range])

instance decidableBex8 (P : Nat → Prop) [DecidablePred P] :
    Decidable (∃ n, n < 8 ∧ P n) :=
  decidableBexLT 8 P

/-- One row of the sprite collides: some of its 8 bits is set and lands on a
set screen cell.  (`X`/`Y` are the values of the coordinate registers, `s` the
screen the row is drawn onto.) -/
def rowColl (mem : Nat → Nat) (s : Nat → Nat → Bool) (X Y iReg row : Nat) : Prop :=
  ∃ col, col < 8 ∧ bitAt (mem (iReg + row)) col = true ∧
    s ((Y + row) % 32) ((X + col) % 64) = true

instance (mem : Nat → Nat) (s : Nat → Nat → Bool) (X Y iReg row : Nat) :
    Decidable (rowColl mem s X Y iReg row) := by
  unfold rowColl
  infer_instance

/-- Row `row` of the sprite writes a set bit into the screen cell `(r, c)`. -/
def cellHit (mem : Nat → Nat) (X Y iReg row r c : Nat) : Prop :=
  r = (Y + row) % 32 ∧ ∃ col, col < 8 ∧ c = (X + col) % 64 ∧
    bitAt (mem (iReg + row)) col = true

instance (mem : Nat → Nat) (X Y iReg row r c : Nat) :
    Decidable (cellHit mem X Y iReg row r c) := by
  unfold cellHit
  infer_instance

/-- The sprite of `Draw x y n` on state `p` writes a set bit into the display
cell `(r, c)`: some row below `n` and some of its 8 columns, most significant
bit first, lands there after the modulo-32/modulo-64 wraparound. -/
def spriteHit (p : Program) (sx sy n r c : Nat) : Prop :=
  ∃ row, row < n ∧ cellHit p.memory (p.v sx) (p.v sy) p.i row r c

instance (p : Program) (sx sy n r c : Nat) : Decidable (spriteHit p sx sy n r c) := by
  unfold spriteHit
  infer_instance

/-- The sprite of `Draw x y n` on state `p` collides: some set sprite bit
lands on a display cell that is already set. -/
def drawCollision (p : Program) (sx sy n : Nat) : Prop :=
  ∃ row, row < n ∧ rowColl p.memory p.screen (p.v sx) (p.v sy) p.i row

instance (p : Program) (sx sy n : Nat) : Decidable (drawCollision p sx sy n) := by
  unfold drawCollision
  infer_instance

/-- Concrete state for the C5 counterexample: the 1-row sprite `0x80` at
`I = 0x300`, drawn with the column register being the flag register F
(`Draw F 1 1`), VF = 5, V1 = 0. -/
def c5p : Program := { Program.new rng0 with
  i := 0x300,
  memory := fun a => if a = 0x300 then 0x80 else 0,
  v := upd (fun _ => 0) 0xF 5 }

/-- Concrete state for the C5 witness: the 1-row sprite `0x80` at `I = 0x300`,
drawn at V0 = 0 (column), V1 = 0 (row). -/
def c5w : Program := { Program.new rng0 with
  i := 0x300,
  memory := fun a => if a = 0x300 then 0x80 else 0 }

/-- Concrete state for the C6 counterexample: sprite `0x80` at `I = 0x300`,
target cell (0,0) initially set. -/
def c6p : Program := { Program.new rng0 with
  i := 0x300,
  memory := fun a => if a = 0x300 then 0x80 else 0,
  screen := fun r c => decide (r = 0 ∧ c = 0) }

/-- Concrete state for the C6 witness: sprite `0x80` at `I = 0x300`, display
initially clear. -/
def c6w : Program := { Program.new rng0 with
  i := 0x300,
  memory := fun a => if a = 0x300 then 0x80 else 0 }

set_option maxHeartbeats 2000000 in
theorem decodeNibbles_invalid_iff (a b c d : Nat) :
    decodeNibbles a b c d = .InvalidInstruction a b c d ↔ ¬ definedNibbles a b c d := by
  rcases Nat.lt_or_ge a 16 with h | h
  · interval_cases a <;>
      first
        | (simp [decodeNibbles, definedNibbles]; done)
        | (simp [decodeNibbles, definedNibbles]; split_ifs <;> simp_all)
  · have h0 : a ≠ 0x0 := by omega
    have h1 : a ≠ 0x1 := by omega
    have h2 : a ≠ 0x2 := by omega
    have h3 : a ≠ 0x3 := by omega
    have h4 : a ≠ 0x4 := by omega
    have h5 : a ≠ 0x5 := by omega
    have h6 : a ≠ 0x6 := by omega
    have h7 : a ≠ 0x7 := by omega
    have h8 : a ≠ 0x8 := by omega
    have h9 : a ≠ 0x9 := by omega
    have hA : a ≠ 0xA := by omega
    have hB : a ≠ 0xB := by omega
    have hC : a ≠ 0xC := by omega
    have hD : a ≠ 0xD := by omega
    have hE : a ≠ 0xE := by omega
    have hF : a ≠ 0xF := by omega
    simp [decodeNibbles, definedNibbles, h0, h1, h2, h3, h4, h5, h6, h7, h8,
      h9, hA, hB, hC, hD, hE, hF]

theorem upd_self (f : Nat → Nat) (k w : Nat) : upd f k w k = w := by
  simp [upd]

theorem upd_ne (f : Nat → Nat) (k w j : Nat) (h : j ≠ k) : upd f k w j = f j := by
  simp [upd, h]

theorem decodeNibbles_zero_family (b c d : Nat)
    (h1 : ¬ (b = 0x0 ∧ c = 0xE ∧ d = 0x0)) (h2 : ¬ (b = 0x0 ∧ c = 0xE ∧ d = 0xE)) :
    decodeNibbles 0x0 b c d = .InvalidInstruction 0x0 b c d := by
  refine (decodeNibbles_invalid_iff 0x0 b c d).mpr ?_
  simp [definedNibbles]
  tauto

/-- C1: decoding is total (the embedding `decode` is a total function on
words) and, for every word, the decoder returns the `InvalidInstruction`
variant carrying the word's four raw nibbles exactly when the word matches
none of the 35 defined opcode patterns; in particular every word of the
legacy `0nnn` family other than `0x00E0` and `0x00EE` decodes to
`InvalidInstruction`. -/
theorem decode_total_invalid (code : Nat) :
    (decode code =
        .InvalidInstruction (nib0 code) (nib1 code) (nib2 code) (nib3 code)
      ↔ ¬ definedOpcode code) ∧
    (nib0 code = 0x0 →
      ¬ (nib1 code = 0x0 ∧ nib2 code = 0xE ∧ nib3 code = 0x0) →
      ¬ (nib1 code = 0x0 ∧ nib2 code = 0xE ∧ nib3 code = 0xE) →
      decode code =
        .InvalidInstruction (nib0 code) (nib1 code) (nib2 code) (nib3 code)) := by
  constructor
  · exact decodeNibbles_invalid_iff (nib0 code) (nib1 code) (nib2 code) (nib3 code)
  · intro h0 h1 h2
    unfold decode
    rw [h0]
    exact decodeNibbles_zero_family (nib1 code) (nib2 code) (nib3 code) h1 h2

/-- Witness for C1 at the concrete word `0x0123` (a legacy `0nnn` word). -/
theorem decode_total_invalid_witness :
    nib0 0x0123 = 0x0 ∧
    decode 0x0123 =
      .InvalidInstruction (nib0 0x0123) (nib1 0x0123) (nib2 0x0123) (nib3 0x0123) :=
  ⟨by decide, (decode_total_invalid 0x0123).2 (by decide) (by decide) (by decide)⟩

/-- C2 counterexample: executing `ReturnSubroutine` on the fresh state (stack
pointer 0) and `CallSubroutine` on a state with stack pointer 16 both panic
(the `u8` subtraction overflow of `stack_pointer -= 1`, respectively the
out-of-bounds `stack[16]`), modelled as the undefined result `none`.  The
generated `run` methods return a bare `Cursor`; the code has no error channel
at all, so neither condition is surfaced as an explicit, reportable error. -/
theorem stack_ops_panic_counterexample :
    (Program.new rng0).stack_pointer = 0 ∧
    Instruction.ReturnSubroutine.run (Program.new rng0) = none ∧
    ({ Program.new rng0 with stack_pointer := 16 } : Program).stack_pointer = 16 ∧
    (Instruction.CallSubroutine 0x300).run
      { Program.new rng0 with stack_pointer := 16 } = none :=
  ⟨rfl, rfl, rfl, rfl⟩

/-- C2 (amended): `ReturnSubroutine` on an empty stack and `CallSubroutine`
on a full 16-entry stack panic (modelled as `none`) instead of reporting an
explicit error; otherwise `ReturnSubroutine` decrements the stack pointer and
jumps to the popped address, and `CallSubroutine` pushes
`program_counter + 2`, increments the stack pointer, and jumps to its
target. -/
theorem stack_ops_semantics :
    (∀ p : Program, p.stack_pointer = 0 →
      Instruction.ReturnSubroutine.run p = none) ∧
    (∀ (p : Program) (a : Nat), p.stack_pointer = 16 →
      (Instruction.CallSubroutine a).run p = none) ∧
    (∀ p : Program, 0 < p.stack_pointer → p.stack_pointer ≤ 16 →
      Instruction.ReturnSubroutine.run p =
        some ({ p with stack_pointer := p.stack_pointer - 1 },
          .Jump (p.stack (p.stack_pointer - 1)))) ∧
    (∀ (p : Program) (a : Nat), p.stack_pointer < 16 →
      (Instruction.CallSubroutine a).run p =
        some ({ p with
          stack := upd p.stack p.stack_pointer ((p.program_counter + 2) % 65536),
          stack_pointer := p.stack_pointer + 1 }, .Jump a)) := by
  refine ⟨?_, ?_, ?_, ?_⟩
  · intro p h
    simp [Instruction.run, h]
  · intro p a h
    simp [Instruction.run, h]
  · intro p h1 h2
    have hne : ¬ p.stack_pointer = 0 := by omega
    have hlt : p.stack_pointer - 1 < 16 := by omega
    simp [Instruction.run, hne, hlt]
  · intro p a h
    simp [Instruction.run, h]

/-- Witness for C2's amended theorem: a one-deep stack returns, and a fresh
state calls. -/
theorem stack_ops_semantics_witness :
    Instruction.ReturnSubroutine.run { Program.new rng0 with stack_pointer := 1 } =
      some ({ { Program.new rng0 with stack_pointer := 1 } with stack_pointer := 1 - 1 },
        .Jump (({ Program.new rng0 with stack_pointer := 1 } : Program).stack (1 - 1))) ∧
    (Instruction.CallSubroutine 0x234).run (Program.new rng0) =
      some ({ Program.new rng0 with
        stack := upd (Program.new rng0).stack (Program.new rng0).stack_pointer
          (((Program.new rng0).program_counter + 2) % 65536),
        stack_pointer := (Program.new rng0).stack_pointer + 1 }, .Jump 0x234) :=
  ⟨stack_ops_semantics.2.2.1 { Program.new rng0 with stack_pointer := 1 }
      (by decide) (by decide),
    stack_ops_semantics.2.2.2 (Program.new rng0) 0x234 (by decide)⟩

/-- C3: for register values in 0–255, `AddWithCarry` (8xy4, with destination
register distinct from the flag register, whose x = F interplay is the
subject of the separate write-conflict analysis) sets VF to 1 iff
`Vx + Vy > 255` (else to 0) and stores `(Vx + Vy) mod 256` into Vx. -/
theorem add_with_carry_spec (p : Program) (x y : Nat) (hx : x < 16) (hy : y < 16)
    (hxF : x ≠ 0xF) (hvx : p.v x < 256) (hvy : p.v y < 256) :
    ∃ p', (Instruction.SetVxToVxAndVyCarry x y).run p = some (p', .Next) ∧
      p'.v 0xF = (if 255 < p.v x + p.v y then 1 else 0) ∧
      (p'.v 0xF = 1 ↔ 255 < p.v x + p.v y) ∧
      p'.v x = (p.v x + p.v y) % 256 := by
  refine ⟨_, rfl, ?_, ?_, ?_⟩
  · simp [Instruction.run, upd]
  · simp [Instruction.run, upd]
  · simp [Instruction.run, upd, hxF]

/-- Witness for C3 at a concrete state: V1 = 200, V2 = 100. -/
theorem add_with_carry_spec_witness :
    ∃ p', (Instruction.SetVxToVxAndVyCarry 1 2).run c3w = some (p', .Next) ∧
      p'.v 0xF = (if 255 < c3w.v 1 + c3w.v 2 then 1 else 0) ∧
      (p'.v 0xF = 1 ↔ 255 < c3w.v 1 + c3w.v 2) ∧
      p'.v 1 = (c3w.v 1 + c3w.v 2) % 256 :=
  add_with_carry_spec c3w 1 2 (by decide) (by decide) (by decide) (by decide) (by decide)

/-- C4 counterexample: `8x0F5` (`SetVxToVxSubVy` with y = F) at V0 = 200,
VF = 100.  The claim demands `V0 := (V0 - VF) mod 256 = 100`, but the code
writes the borrow flag to VF *before* re-reading the operands, so it stores
`200 - 1 = 199`. -/
theorem sub_with_borrow_counterexample :
    c4p.v 0 = 200 ∧ c4p.v 0xF = 100 ∧
    (execOut (.SetVxToVxSubVy 0 0xF) c4p).v 0 = 199 ∧
    (c4p.v 0 + 256 - c4p.v 0xF) % 256 = 100 ∧ (199 : Nat) ≠ 100 := by
  decide

/-- C4 (amended): for register values in 0–255 and register indices distinct
from the flag register F (the flag write precedes the subtraction and the
operands are re-read after it, so either index being F changes the result),
`8xy5` sets VF to 1 iff Vx > Vy and stores `(Vx - Vy) mod 256` into Vx, and
`8xy7` sets VF to 1 iff Vy > Vx and stores `(Vy - Vx) mod 256` into Vx. -/
theorem sub_with_borrow_spec (p : Program) (x y : Nat) (hx : x < 16) (hy : y < 16)
    (hxF : x ≠ 0xF) (hyF : y ≠ 0xF) (hvx : p.v x < 256) (hvy : p.v y < 256) :
    (∃ p', (Instruction.SetVxToVxSubVy x y).run p = some (p', .Next) ∧
      p'.v 0xF = (if p.v y < p.v x then 1 else 0) ∧
      (p'.v 0xF = 1 ↔ p.v y < p.v x) ∧
      p'.v x = (p.v x + 256 - p.v y) % 256) ∧
    (∃ p', (Instruction.SetVxToVySubVx x y).run p = some (p', .Next) ∧
      p'.v 0xF = (if p.v x < p.v y then 1 else 0) ∧
      (p'.v 0xF = 1 ↔ p.v x < p.v y) ∧
      p'.v x = (p.v y + 256 - p.v x) % 256) := by
  have hFx : (0xF : Nat) ≠ x := fun h => hxF h.symm
  constructor
  · refine ⟨_, rfl, ?_, ?_, ?_⟩
    · simp [Instruction.run, upd, hFx, hxF]
    · simp [Instruction.run, upd, hFx, hxF]
    · simp [Instruction.run, upd, hxF, hyF]
  · refine ⟨_, rfl, ?_, ?_, ?_⟩
    · simp [Instruction.run, upd, hFx, hxF]
    · simp [Instruction.run, upd, hFx, hxF]
    · simp [Instruction.run, upd, hxF, hyF]

/-- Witness for C4's amended theorem at V1 = 100, V2 = 200. -/
theorem sub_with_borrow_spec_witness :
    (∃ p', (Instruction.SetVxToVxSubVy 1 2).run c4w = some (p', .Next) ∧
      p'.v 0xF = (if c4w.v 2 < c4w.v 1 then 1 else 0) ∧
      (p'.v 0xF = 1 ↔ c4w.v 2 < c4w.v 1) ∧
      p'.v 1 = (c4w.v 1 + 256 - c4w.v 2) % 256) ∧
    (∃ p', (Instruction.SetVxToVySubVx 1 2).run c4w = some (p', .Next) ∧
      p'.v 0xF = (if c4w.v 1 < c4w.v 2 then 1 else 0) ∧
      (p'.v 0xF = 1 ↔ c4w.v 1 < c4w.v 2) ∧
      p'.v 1 = (c4w.v 2 + 256 - c4w.v 1) % 256) :=
  sub_with_borrow_spec c4w 1 2 (by decide) (by decide) (by decide) (by decide)
    (by decide) (by decide)

/-- C8 counterexample: `SkipKeyPressed`/`SkipKeyNotPressed` with V0 = 16.
The code indexes the 16-entry keypad with the unmasked register value
(`program.keypad[program.v[self.x] as usize]`), so both executions panic
(modelled as `none`) instead of treating the out-of-range index as "key not
pressed". -/
theorem skip_key_out_of_range_counterexample :
    c8p.v 0 = 16 ∧
    (Instruction.SkipKeyPressed 0).run c8p = none ∧
    (Instruction.SkipKeyNotPressed 0).run c8p = none :=
  ⟨rfl, rfl, rfl⟩

/-- C8 (amended): the key index for `Ex9E`/`ExA1` is the raw, unmasked value
of Vx; execution is total exactly when `Vx ≤ 15`, in which case it skips
according to the keypad state, and any `Vx > 15` panics with an out-of-bounds
keypad access (modelled as `none`). -/
theorem skip_key_spec (p : Program) (x : Nat) :
    (p.v x < 16 →
      (Instruction.SkipKeyPressed x).run p =
        some (p, if p.keypad (p.v x) then .Skip else .Next) ∧
      (Instruction.SkipKeyNotPressed x).run p =
        some (p, if ¬ p.keypad (p.v x) then .Skip else .Next)) ∧
    (16 ≤ p.v x →
      (Instruction.SkipKeyPressed x).run p = none ∧
      (Instruction.SkipKeyNotPressed x).run p = none) := by
  constructor
  · intro h
    constructor <;> simp [Instruction.run, h]
  · intro h
    have h' : ¬ p.v x < 16 := by omega
    constructor <;> simp [Instruction.run, h']

/-- Witness for C8's amended theorem on the fresh state (V0 = 0, key 0 up). -/
theorem skip_key_spec_witness :
    (Instruction.SkipKeyPressed 0).run (Program.new rng0) =
      some (Program.new rng0,
        if (Program.new rng0).keypad ((Program.new rng0).v 0) then .Skip else .Next) ∧
    (Instruction.SkipKeyNotPressed 0).run (Program.new rng0) =
      some (Program.new rng0,
        if ¬ (Program.new rng0).keypad ((Program.new rng0).v 0) then .Skip else .Next) :=
  (skip_key_spec (Program.new rng0) 0).1 (by decide)

/-- C10 counterexample: `8F05` (`SetVxToVxSubVy` with x = F) at VF = 200,
V0 = 100.  The claim says the final VF is `(VF - V0) mod 256 = 100`; the code
first writes the borrow flag (1, since 200 > 100) into VF and then re-reads
VF as the minuend, leaving `(1 - 100) mod 256 = 157`. -/
theorem vf_write_conflict_counterexample :
    c10p.v 0xF = 200 ∧ c10p.v 0 = 100 ∧
    (execOut (.SetVxToVxSubVy 0xF 0) c10p).v 0xF = 157 ∧
    (c10p.v 0xF + 256 - c10p.v 0) % 256 = 100 ∧ (157 : Nat) ≠ 100 := by
  decide

/-- C10 (amended): with destination register index F, `AddWithCarry` (8Fy4)
leaves VF equal to the carry flag and discards the 8-bit sum (the flag is
written after the result); `SubWithBorrow` (8Fy5, y ≠ F) writes the borrow
flag first and then re-reads VF as the minuend, leaving
`VF = (flag - Vy) mod 256` where `flag` is 1 iff the original VF exceeds Vy
(neither a preserved flag nor the wrapped difference of the original VF). -/
theorem vf_write_conflict_spec (p : Program) (y : Nat) (hy : y < 16)
    (hvF : p.v 0xF < 256) (hvy : p.v y < 256) :
    (∃ p', (Instruction.SetVxToVxAndVyCarry 0xF y).run p = some (p', .Next) ∧
      p'.v 0xF = (if 255 < p.v 0xF + p.v y then 1 else 0)) ∧
    (y ≠ 0xF →
      ∃ p', (Instruction.SetVxToVxSubVy 0xF y).run p = some (p', .Next) ∧
        p'.v 0xF = ((if p.v y < p.v 0xF then 1 else 0) + 256 - p.v y) % 256) := by
  constructor
  · refine ⟨_, rfl, ?_⟩
    simp [Instruction.run, upd]
  · intro hyF
    refine ⟨_, rfl, ?_⟩
    simp [Instruction.run, upd, hyF]

/-- Witness for C10's amended theorem at VF = 200, V0 = 100. -/
theorem vf_write_conflict_spec_witness :
    (∃ p', (Instruction.SetVxToVxAndVyCarry 0xF 0).run c10p = some (p', .Next) ∧
      p'.v 0xF = (if 255 < c10p.v 0xF + c10p.v 0 then 1 else 0)) ∧
    ((0 : Nat) ≠ 0xF →
      ∃ p', (Instruction.SetVxToVxSubVy 0xF 0).run c10p = some (p', .Next) ∧
        p'.v 0xF = ((if c10p.v 0 < c10p.v 0xF then 1 else 0) + 256 - c10p.v 0) % 256) :=
  vf_write_conflict_spec c10p 0 (by decide) (by decide) (by decide)

theorem run_pc_preserved (ins : Instruction) (p p' : Program) (c : Cursor)
    (h : ins.run p = some (p', c)) : p'.program_counter = p.program_counter := by
  cases ins <;>
    simp only [Instruction.run] at h <;>
    (repeat' split at h) <;>
    (try exact Option.noConfusion h) <;>
    (simp only [Option.some.injEq, Prod.mk.injEq] at h) <;>
    (obtain ⟨rfl, rfl⟩ := h) <;>
    rfl

/-- C9 counterexample: the program counter starts even at `0x200`, but the
state reached after a single step of the ROM `0x12 0x01` has the odd program
counter `0x201` — evenness is not an invariant of reachable states. -/
theorem pc_odd_counterexample :
    (Program.new rng0).program_counter = 0x200 ∧
    (Program.run c9p).isSome = true ∧
    (stepOut c9p).program_counter = 0x201 ∧
    (stepOut c9p).program_counter % 2 = 1 := by
  refine ⟨rfl, rfl, rfl, rfl⟩

/-- C9 (amended): the program counter is initialized to the even address
`0x200`; no instruction's `run` method modifies it (only the returned cursor
does), and applying a `Stay`/`Next`/`Skip` cursor — or a `Jump` to an even
address — preserves evenness.  Evenness of every reachable state fails,
however, because `Jump` cursors can carry odd targets (see the
counterexample). -/
theorem pc_alignment_spec :
    (∀ r : Nat → Nat, (Program.new r).program_counter = 0x200) ∧
    (∀ (ins : Instruction) (p p' : Program) (c : Cursor),
      ins.run p = some (p', c) → p'.program_counter = p.program_counter) ∧
    (∀ (p : Program) (c : Cursor), p.program_counter % 2 = 0 →
      (∀ a, c = .Jump a → a % 2 = 0) →
      (applyCursor p c).program_counter % 2 = 0) := by
  refine ⟨fun r => rfl, run_pc_preserved, ?_⟩
  intro p c hpc hj
  cases c with
  | Stay => exact hpc
  | Next =>
    simp only [applyCursor]
    omega
  | Skip =>
    simp only [applyCursor]
    omega
  | Jump a =>
    simpa [applyCursor] using hj a rfl

/-- Witness for C9's amended theorem: a register write preserves the program
counter, and a `Next` cursor preserves evenness, at the fresh state. -/
theorem pc_alignment_spec_witness :
    ({ Program.new rng0 with v := upd (Program.new rng0).v 0 5 } : Program).program_counter
        = (Program.new rng0).program_counter ∧
    (applyCursor (Program.new rng0) .Next).program_counter % 2 = 0 :=
  ⟨pc_alignment_spec.2.1 (.SetRegister 0 5) (Program.new rng0) _ .Next rfl,
    pc_alignment_spec.2.2 (Program.new rng0) .Next (by decide)
      (fun a h => Cursor.noConfusion h)⟩

theorem find?_range'_eq_some (kp : Nat → Bool) (k : Nat) (hk : kp k = true) :
    ∀ (m s : Nat), s ≤ k → k < s + m → (∀ j, s ≤ j → j < k → kp j = false) →
      (List.range' s m).find? kp = some k := by
  intro m
  induction m with
  | zero =>
    intro s h1 h2 _
    exact absurd h2 (by omega)
  | succ m ih =>
    intro s hs hlt hmin
    rw [List.range'_succ]
    by_cases hsk : s = k
    · subst hsk
      exact List.find?_cons_of_pos _ hk
    · have hkp : kp s = false := hmin s le_rfl (by omega)
      rw [List.find?_cons_of_neg _ (by simp [hkp])]
      exact ih (s + 1) (by omega) (by omega) (fun j hj hj2 => hmin j (by omega) hj2)

theorem find?_range_min (kp : Nat → Bool) (k : Nat) (hk16 : k < 16)
    (hk : kp k = true) (hmin : ∀ j, j < k → kp j = false) :
    (List.range 16).find? kp = some k := by
  rw [List.range_eq_range']
  exact find?_range'_eq_some kp k hk 16 0 (Nat.zero_le k) (by omega)
    (fun j _ hj => hmin j hj)

theorem find?_range_none (kp : Nat → Bool) (h : ∀ j, j < 16 → kp j = false) :
    (List.range 16).find? kp = none := by
  apply List.find?_eq_none.mpr
  intro j hj
  rw [List.mem_range] at hj
  simp [h j hj]

theorem blockKey_run_min (p : Program) (x k : Nat) (hk16 : k < 16)
    (hk : p.keypad k = true) (hmin : ∀ j, j < k → p.keypad j = false) :
    (Instruction.SetVxToNextKeyPress x).run p =
      some ({ p with v := upd p.v x k }, .Next) := by
  simp only [Instruction.run]
  rw [find?_range_min (fun j => p.keypad j) k hk16 hk hmin]

theorem blockKey_run_none (p : Program) (x : Nat)
    (h : ∀ j, j < 16 → p.keypad j = false) :
    (Instruction.SetVxToNextKeyPress x).run p = some (p, .Stay) := by
  simp only [Instruction.run]
  rw [find?_range_none (fun j => p.keypad j) h]

theorem blockKey_fetch_bound (p : Program) (ins : Instruction)
    (h : p.instruction = some ins) : p.program_counter + 1 ≤ 4095 := by
  by_contra hc
  unfold Program.instruction at h
  rw [if_neg hc] at h
  exact Option.noConfusion h

/-- C7: `BlockForKey` scans the keypad in increasing index order: with `k`
the smallest pressed key it stores `k` into Vx and returns `Next`; with no
key pressed it returns `Stay` and the full step leaves the state — in
particular the program counter — unchanged, for every number of repetitions;
and with exactly the keys below 8 limited to key 7 pressed, one step stores 7
into Vx and advances the program counter by 2. -/
theorem block_for_key_spec :
    (∀ (p : Program) (x k : Nat), k < 16 → p.keypad k = true →
      (∀ j, j < k → p.keypad j = false) →
      (Instruction.SetVxToNextKeyPress x).run p =
        some ({ p with v := upd p.v x k }, .Next)) ∧
    (∀ (p : Program) (x : Nat), (∀ k, k < 16 → p.keypad k = false) →
      (Instruction.SetVxToNextKeyPress x).run p = some (p, .Stay)) ∧
    (∀ (p : Program) (x : Nat),
      p.instruction = some (.SetVxToNextKeyPress x) →
      (∀ k, k < 16 → p.keypad k = false) →
      ∀ m, iterRun m p = some p) ∧
    (∀ (p : Program) (x : Nat),
      p.instruction = some (.SetVxToNextKeyPress x) →
      p.keypad 7 = true → (∀ j, j < 7 → p.keypad j = false) →
      ∃ p', Program.run p = some p' ∧ p'.v x = 7 ∧
        p'.program_counter = p.program_counter + 2 ∧
        (∀ j, j ≠ x → p'.v j = p.v j)) := by
  refine ⟨blockKey_run_min, blockKey_run_none, ?_, ?_⟩
  · intro p x hins hkeys m
    have hstep : Program.run p = some p := by
      simp only [Program.run, hins, blockKey_run_none p x hkeys, applyCursor]
    induction m with
    | zero => rfl
    | succ m ih =>
      show (match Program.run p with
        | none => none
        | some p' => iterRun m p') = some p
      rw [hstep]
      exact ih
  · intro p x hins hk7 hmin
    have hpc : p.program_counter + 1 ≤ 4095 := blockKey_fetch_bound p _ hins
    have hmod : (p.program_counter + 2) % 65536 = p.program_counter + 2 :=
      Nat.mod_eq_of_lt (by omega)
    refine ⟨applyCursor { p with v := upd p.v x 7 } .Next, ?_, ?_, ?_, ?_⟩
    · simp only [Program.run, hins, blockKey_run_min p x 7 (by omega) hk7 hmin,
        applyCursor]
    · exact upd_self p.v x 7
    · show (p.program_counter + 2) % 65536 = p.program_counter + 2
      exact hmod
    · intro j hj
      exact upd_ne p.v x 7 j hj

/-- Witness for C7: on `c7w` (only key 7 down), one step stores 7 into V1
and advances the program counter by 2; and the keyless fetch state loops
forever returning `Stay`. -/
theorem block_for_key_spec_witness :
    (∃ p', Program.run c7w = some p' ∧ p'.v 1 = 7 ∧
      p'.program_counter = c7w.program_counter + 2 ∧
      (∀ j, j ≠ 1 → p'.v j = c7w.v j)) ∧
    (∀ m, iterRun m ((Program.new rng0).load [0xF1, 0x04]) =
      some ((Program.new rng0).load [0xF1, 0x04])) :=
  ⟨block_for_key_spec.2.2.2 c7w 1 (by decide) (by decide) (by decide),
    block_for_key_spec.2.2.1 ((Program.new rng0).load [0xF1, 0x04]) 1
      (by decide) (by decide)⟩

theorem mod_cancel_64 (X c1 c2 : Nat) (h1 : c1 < 8) (h2 : c2 < 8)
    (h : (X + c1) % 64 = (X + c2) % 64) : c1 = c2 := by omega

theorem mod_cancel_32 (Y r1 r2 : Nat) (h1 : r1 < 16) (h2 : r2 < 16)
    (h : (Y + r1) % 32 = (Y + r2) % 32) : r1 = r2 := by omega

theorem one_lor_one : (1 : Nat) ||| 1 = 1 := rfl

theorem lor_flag_merge (A : Nat) (P Q : Prop) [Decidable P] [Decidable Q] :
    (A ||| (if P then 1 else 0)) ||| (if Q then 1 else 0) =
      A ||| (if P ∨ Q then 1 else 0) := by
  by_cases hP : P <;> by_cases hQ : Q <;>
    simp [hP, hQ, Nat.lor_assoc, one_lor_one]

theorem exists_lt_succ_iff (k : Nat) (P : Nat → Prop) :
    (∃ m, m < k + 1 ∧ P m) ↔ (∃ m, m < k ∧ P m) ∨ P k := by
  constructor
  · rintro ⟨m, hm, h⟩
    rcases Nat.lt_succ_iff_lt_or_eq.mp hm with h' | rfl
    · exact Or.inl ⟨m, h', h⟩
    · exact Or.inr h
  · rintro (⟨m, hm, h⟩ | h)
    · exact ⟨m, Nat.lt_succ_of_lt hm, h⟩
    · exact ⟨k, Nat.lt_succ_self k, h⟩

theorem drawRowAux_spec (sx byteVal y : Nat)
    (st : (Nat → Nat) × (Nat → Nat → Bool)) (hsx : sx ≠ 0xF) :
    ∀ k, k ≤ 8 →
    (∀ j, j ≠ 0xF → (drawRowAux sx byteVal y st k).1 j = st.1 j) ∧
    ((drawRowAux sx byteVal y st k).1 0xF =
      st.1 0xF ||| (if ∃ col, col < k ∧ bitAt byteVal col = true ∧
        st.2 y ((st.1 sx + col) % 64) = true then 1 else 0)) ∧
    (∀ r c, (drawRowAux sx byteVal y st k).2 r c =
      xor (st.2 r c) (decide (r = y ∧ ∃ col, col < k ∧
        c = (st.1 sx + col) % 64 ∧ bitAt byteVal col = true))) := by
  intro k
  induction k with
  | zero =>
    intro _
    refine ⟨fun j _ => rfl, ?_, fun r c => ?_⟩
    · simp [drawRowAux]
    · simp [drawRowAux]
  | succ k ih =>
    intro hk
    obtain ⟨ih1, ih2, ih3⟩ := ih (by omega)
    have hx : (drawRowAux sx byteVal y st k).1 sx = st.1 sx := ih1 sx hsx
    have hk8 : k < 8 := by omega
    have hfresh : (drawRowAux sx byteVal y st k).2 y ((st.1 sx + k) % 64)
        = st.2 y ((st.1 sx + k) % 64) := by
      rw [ih3]
      have hnot : ¬ (∃ col, col < k ∧
          (st.1 sx + k) % 64 = (st.1 sx + col) % 64 ∧ bitAt byteVal col = true) := by
        rintro ⟨col, hcol, hceq, -⟩
        have := mod_cancel_64 (st.1 sx) k col hk8 (by omega) hceq
        omega
      simp [hnot]
    refine ⟨?_, ?_, ?_⟩
    · intro j hj
      show (drawBitStep sx byteVal y k (drawRowAux sx byteVal y st k)).1 j = st.1 j
      simp only [drawBitStep]
      rw [upd_ne _ _ _ j hj]
      exact ih1 j hj
    · show (drawBitStep sx byteVal y k (drawRowAux sx byteVal y st k)).1 0xF = _
      simp only [drawBitStep]
      rw [upd_self, hx, hfresh, ih2, lor_flag_merge]
      have hiff : ((∃ col, col < k ∧ bitAt byteVal col = true ∧
            st.2 y ((st.1 sx + col) % 64) = true) ∨
          (bitAt byteVal k && st.2 y ((st.1 sx + k) % 64)) = true) ↔
          (∃ col, col < k + 1 ∧ bitAt byteVal col = true ∧
            st.2 y ((st.1 sx + col) % 64) = true) := by
        rw [exists_lt_succ_iff k (fun col => bitAt byteVal col = true ∧
          st.2 y ((st.1 sx + col) % 64) = true)]
        rw [Bool.and_eq_true]
      rw [if_congr hiff rfl rfl]
    · intro r c
      show (drawBitStep sx byteVal y k (drawRowAux sx byteVal y st k)).2 r c = _
      simp only [drawBitStep, updS]
      rw [hx, hfresh]
      by_cases hrc : r = y ∧ c = (st.1 sx + k) % 64
      · rw [if_pos hrc]
        obtain ⟨hr, hc⟩ := hrc
        subst hr
        subst hc
        have hdec : decide ((r : Nat) = r ∧ ∃ col, col < k + 1 ∧
            (st.1 sx + k) % 64 = (st.1 sx + col) % 64 ∧ bitAt byteVal col = true)
            = bitAt byteVal k := by
          cases hb : bitAt byteVal k with
          | false =>
            apply decide_eq_false
            rintro ⟨-, col, hcol, hceq, hbit⟩
            have := mod_cancel_64 (st.1 sx) k col hk8 (by omega) hceq
            subst this
            rw [hb] at hbit
            exact Bool.noConfusion hbit
          | true =>
            apply decide_eq_true
            exact ⟨rfl, k, by omega, rfl, hb⟩
        rw [hdec]
      · rw [if_neg hrc, ih3 r c]
        have hiff : (r = y ∧ ∃ col, col < k ∧ c = (st.1 sx + col) % 64 ∧
            bitAt byteVal col = true) ↔
            (r = y ∧ ∃ col, col < k + 1 ∧ c = (st.1 sx + col) % 64 ∧
              bitAt byteVal col = true) := by
          constructor
          · rintro ⟨hr, col, hcol, hc, hb⟩
            exact ⟨hr, col, by omega, hc, hb⟩
          · rintro ⟨hr, col, hcol, hc, hb⟩
            rcases Nat.lt_succ_iff_lt_or_eq.mp hcol with h' | rfl
            · exact ⟨hr, col, h', hc, hb⟩
            · exact absurd ⟨hr, hc⟩ hrc
        rw [decide_eq_decide.mpr hiff]

theorem rowColl_iff (mem : Nat → Nat) (s : Nat → Nat → Bool) (X Y iReg row : Nat) :
    rowColl mem s X Y iReg row ↔ (∃ col, col < 8 ∧
      bitAt (mem (iReg + row)) col = true ∧
      s ((Y + row) % 32) ((X + col) % 64) = true) := Iff.rfl

theorem cellHit_iff (mem : Nat → Nat) (X Y iReg row r c : Nat) :
    cellHit mem X Y iReg row r c ↔ (r = (Y + row) % 32 ∧ ∃ col, col < 8 ∧
      c = (X + col) % 64 ∧ bitAt (mem (iReg + row)) col = true) := Iff.rfl

theorem drawRowsAux_succ (sx sy iReg : Nat) (mem : Nat → Nat)
    (st : (Nat → Nat) × (Nat → Nat → Bool)) (k : Nat) :
    drawRowsAux sx sy iReg mem st (k + 1) =
      drawRowAux sx (mem (iReg + k))
        (((drawRowsAux sx sy iReg mem st k).1 sy + k) % 32)
        (drawRowsAux sx sy iReg mem st k) 8 := rfl

theorem drawRowsAux_spec (sx sy iReg : Nat) (mem : Nat → Nat)
    (st : (Nat → Nat) × (Nat → Nat → Bool)) (hsx : sx ≠ 0xF) (hsy : sy ≠ 0xF) :
    ∀ k, k ≤ 16 →
    (∀ j, j ≠ 0xF → (drawRowsAux sx sy iReg mem st k).1 j = st.1 j) ∧
    ((drawRowsAux sx sy iReg mem st k).1 0xF =
      st.1 0xF ||| (if ∃ row, row < k ∧ rowColl mem st.2 (st.1 sx) (st.1 sy) iReg row
        then 1 else 0)) ∧
    (∀ r c, (drawRowsAux sx sy iReg mem st k).2 r c =
      xor (st.2 r c) (decide (∃ row, row < k ∧
        cellHit mem (st.1 sx) (st.1 sy) iReg row r c))) := by
  intro k
  induction k with
  | zero =>
    intro _
    refine ⟨fun j _ => rfl, ?_, fun r c => ?_⟩
    · simp [drawRowsAux]
    · simp [drawRowsAux]
  | succ k ih =>
    intro hk
    obtain ⟨ih1, ih2, ih3⟩ := ih (by omega)
    have hx : (drawRowsAux sx sy iReg mem st k).1 sx = st.1 sx := ih1 sx hsx
    have hy : (drawRowsAux sx sy iReg mem st k).1 sy = st.1 sy := ih1 sy hsy
    have hk16 : k < 16 := by omega
    have hfresh : ∀ z, (drawRowsAux sx sy iReg mem st k).2 ((st.1 sy + k) % 32) z
        = st.2 ((st.1 sy + k) % 32) z := by
      intro z
      rw [ih3]
      have hnot : ¬ (∃ row, row < k ∧
          cellHit mem (st.1 sx) (st.1 sy) iReg row ((st.1 sy + k) % 32) z) := by
        rintro ⟨row, hrow, hcell⟩
        obtain ⟨hreq, -⟩ := (cellHit_iff mem (st.1 sx) (st.1 sy) iReg row _ z).mp hcell
        have := mod_cancel_32 (st.1 sy) k row hk16 (by omega) hreq
        omega
      simp [hnot]
    obtain ⟨R1, R2, R3⟩ := drawRowAux_spec sx (mem (iReg + k))
      (((drawRowsAux sx sy iReg mem st k).1 sy + k) % 32)
      (drawRowsAux sx sy iReg mem st k) hsx 8 le_rfl
    rw [hy] at R1 R2 R3
    rw [hx] at R2 R3
    simp only [hfresh] at R2
    refine ⟨?_, ?_, ?_⟩
    · intro j hj
      rw [drawRowsAux_succ, hy, R1 j hj]
      exact ih1 j hj
    · have hconv2 : (if ∃ col, col < 8 ∧ bitAt (mem (iReg + k)) col = true ∧
          st.2 ((st.1 sy + k) % 32) ((st.1 sx + col) % 64) = true then (1 : Nat) else 0) =
          (if rowColl mem st.2 (st.1 sx) (st.1 sy) iReg k then (1 : Nat) else 0) :=
        if_congr Iff.rfl rfl rfl
      rw [drawRowsAux_succ, hy, R2, hconv2, ih2, lor_flag_merge]
      rw [if_congr (exists_lt_succ_iff k
        (fun row => rowColl mem st.2 (st.1 sx) (st.1 sy) iReg row)).symm rfl rfl]
    · intro r c
      have hconv : (decide (r = (st.1 sy + k) % 32 ∧ ∃ col, col < 8 ∧
          c = (st.1 sx + col) % 64 ∧ bitAt (mem (iReg + k)) col = true)) =
          decide (cellHit mem (st.1 sx) (st.1 sy) iReg k r c) :=
        decide_eq_decide.mpr Iff.rfl
      rw [drawRowsAux_succ, hy, R3 r c, hconv, ih3 r c, Bool.xor_assoc]
      have hgoal : xor
          (decide (∃ row, row < k ∧
            cellHit mem (st.1 sx) (st.1 sy) iReg row r c))
          (decide (cellHit mem (st.1 sx) (st.1 sy) iReg k r c)) =
          decide (∃ row, row < k + 1 ∧
            cellHit mem (st.1 sx) (st.1 sy) iReg row r c) := by
        by_cases hA : (∃ row, row < k ∧
            cellHit mem (st.1 sx) (st.1 sy) iReg row r c)
        · by_cases hB : cellHit mem (st.1 sx) (st.1 sy) iReg k r c
          · exfalso
            obtain ⟨row, hrow, hcell⟩ := hA
            obtain ⟨hr, -⟩ :=
              (cellHit_iff mem (st.1 sx) (st.1 sy) iReg row r c).mp hcell
            obtain ⟨hr2, -⟩ :=
              (cellHit_iff mem (st.1 sx) (st.1 sy) iReg k r c).mp hB
            have heq : (st.1 sy + row) % 32 = (st.1 sy + k) % 32 := by
              rw [← hr, hr2]
            have := mod_cancel_32 (st.1 sy) row k (by omega) hk16 heq
            omega
          · have hC : (∃ row, row < k + 1 ∧
                cellHit mem (st.1 sx) (st.1 sy) iReg row r c) := by
              obtain ⟨row, hrow, hcell⟩ := hA
              exact ⟨row, by omega, hcell⟩
            simp [hA, hB, hC]
        · by_cases hB : cellHit mem (st.1 sx) (st.1 sy) iReg k r c
          · have hC : (∃ row, row < k + 1 ∧
                cellHit mem (st.1 sx) (st.1 sy) iReg row r c) :=
              ⟨k, by omega, hB⟩
            simp [hA, hB, hC]
          · have hC : ¬ (∃ row, row < k + 1 ∧
                cellHit mem (st.1 sx) (st.1 sy) iReg row r c) := by
              rintro ⟨row, hrow, hcell⟩
              rcases Nat.lt_succ_iff_lt_or_eq.mp hrow with h2 | rfl
              · exact hA ⟨row, h2, hcell⟩
              · exact hB hcell
            simp [hA, hB, hC]
      rw [hgoal]

/-- Full characterization of `Draw::run` for coordinate registers distinct
from the flag register and an in-bounds sprite: the screen is XORed with the
sprite hit mask, VF becomes the collision indicator, and nothing else
changes. -/
theorem draw_effect (p : Program) (sx sy n : Nat) (hsx : sx ≠ 0xF) (hsy : sy ≠ 0xF)
    (hn : n ≤ 15) (hb : p.i + n ≤ 4096) :
    ∃ p', (Instruction.Draw sx sy n).run p = some (p', .Next) ∧
      p'.memory = p.memory ∧ p'.i = p.i ∧
      p'.program_counter = p.program_counter ∧ p'.keypad = p.keypad ∧
      (∀ j, j ≠ 0xF → p'.v j = p.v j) ∧
      (∀ r c, p'.screen r c = xor (p.screen r c) (decide (spriteHit p sx sy n r c))) ∧
      (p'.v 0xF = if drawCollision p sx sy n then 1 else 0) := by
  obtain ⟨L1, L2, L3⟩ := drawRowsAux_spec sx sy p.i p.memory
    (upd p.v 0xF 0, p.screen) hsx hsy n (by omega)
  have e1 : (upd p.v 0xF 0, p.screen).1 sx = p.v sx := upd_ne p.v 0xF 0 sx hsx
  have e2 : (upd p.v 0xF 0, p.screen).1 sy = p.v sy := upd_ne p.v 0xF 0 sy hsy
  have e0 : (upd p.v 0xF 0, p.screen).1 0xF = 0 := upd_self p.v 0xF 0
  have e3 : (upd p.v 0xF 0, p.screen).2 = p.screen := rfl
  rw [e1, e2] at L2 L3
  rw [e0, e3] at L2
  refine ⟨{ p with
      v := (drawRowsAux sx sy p.i p.memory (upd p.v 0xF 0, p.screen) n).1,
      screen := (drawRowsAux sx sy p.i p.memory (upd p.v 0xF 0, p.screen) n).2 },
    ?_, rfl, rfl, rfl, rfl, ?_, ?_, ?_⟩
  · simp only [Instruction.run]
    rw [if_pos (Or.inr hb)]
  · intro j hj
    rw [show ({ p with
        v := (drawRowsAux sx sy p.i p.memory (upd p.v 0xF 0, p.screen) n).1,
        screen := (drawRowsAux sx sy p.i p.memory (upd p.v 0xF 0, p.screen) n).2 } :
          Program).v j
      = (drawRowsAux sx sy p.i p.memory (upd p.v 0xF 0, p.screen) n).1 j from rfl]
    rw [L1 j hj]
    exact upd_ne p.v 0xF 0 j hj
  · intro r c
    exact (L3 r c).trans
      (congrArg (xor (p.screen r c)) (decide_eq_decide.mpr Iff.rfl))
  · refine L2.trans ?_
    rw [Nat.zero_or]
    exact if_congr Iff.rfl rfl rfl

/-- C5 counterexample: with the column register x = F and VF = 5, the claim
places the sprite bit at column `(Vx + 0) mod 64 = 5`, but the code resets VF
to 0 before drawing and re-reads it for every column computation, so the bit
lands at column 0 instead: cell (0,5) stays clear and cell (0,0) is set. -/
theorem draw_flag_register_counterexample :
    c5p.v 0xF = 5 ∧ c5p.v 1 = 0 ∧
    bitAt (c5p.memory (c5p.i + 0)) 0 = true ∧
    (c5p.v 1 + 0) % 32 = 0 ∧ (c5p.v 0xF + 0) % 64 = 5 ∧
    c5p.screen 0 5 = false ∧
    ((Instruction.Draw 0xF 1 1).run c5p).isSome = true ∧
    (execOut (.Draw 0xF 1 1) c5p).screen 0 5 = false ∧
    (execOut (.Draw 0xF 1 1) c5p).screen 0 0 = true := by
  decide

/-- C5 (amended): for coordinate register indices distinct from the flag
register F (the code mutates VF during the draw and re-reads the coordinate
registers through it, see the counterexample) and an in-bounds sprite,
`Draw x y n` resets VF, XORs each of the n×8 sprite bits (MSB first) into the
cell at row `(Vy + row) mod 32`, column `(Vx + col) mod 64`, leaves every
other register unchanged, and ends with VF = 1 exactly when some set sprite
bit landed on a previously set cell. -/
theorem draw_spec (p : Program) (sx sy n : Nat) (hsx : sx ≠ 0xF) (hsy : sy ≠ 0xF)
    (hn : n ≤ 15) (hb : p.i + n ≤ 4096) :
    ∃ p', (Instruction.Draw sx sy n).run p = some (p', .Next) ∧
      (∀ j, j ≠ 0xF → p'.v j = p.v j) ∧
      (∀ r c, p'.screen r c = xor (p.screen r c) (decide (spriteHit p sx sy n r c))) ∧
      (p'.v 0xF = 1 ↔ drawCollision p sx sy n) ∧
      (p'.v 0xF = if drawCollision p sx sy n then 1 else 0) := by
  obtain ⟨p', h1, -, -, -, -, h6, h7, h8⟩ := draw_effect p sx sy n hsx hsy hn hb
  refine ⟨p', h1, h6, h7, ?_, h8⟩
  rw [h8]
  by_cases hcoll : drawCollision p sx sy n
  · simp [hcoll]
  · simp [hcoll]

/-- Witness for C5's amended theorem at the concrete state `c5w`. -/
theorem draw_spec_witness :
    ∃ p', (Instruction.Draw 0 1 1).run c5w = some (p', .Next) ∧
      (∀ j, j ≠ 0xF → p'.v j = c5w.v j) ∧
      (∀ r c, p'.screen r c = xor (c5w.screen r c) (decide (spriteHit c5w 0 1 1 r c))) ∧
      (p'.v 0xF = 1 ↔ drawCollision c5w 0 1 1) ∧
      (p'.v 0xF = if drawCollision c5w 0 1 1 then 1 else 0) :=
  draw_spec c5w 0 1 1 (by decide) (by decide) (by decide) (by decide)

theorem singleBit_iff (col0 col : Nat) (h0 : col0 < 8) (h : col < 8) :
    bitAt (1 <<< (7 - col0)) col = true ↔ col = col0 := by
  interval_cases col0 <;> interval_cases col <;> decide

theorem singleSprite_hit (mem : Nat → Nat) (X Y iReg col0 : Nat) (hcol : col0 < 8)
    (hmem : mem iReg = 1 <<< (7 - col0)) (r c : Nat) :
    (∃ row, row < 1 ∧ cellHit mem X Y iReg row r c) ↔
      (r = Y % 32 ∧ c = (X + col0) % 64) := by
  constructor
  · rintro ⟨row, hrow, hcell⟩
    interval_cases row
    obtain ⟨hr, col, hcol8, hc, hbit⟩ := (cellHit_iff mem X Y iReg 0 r c).mp hcell
    rw [Nat.add_zero] at hr
    rw [Nat.add_zero, hmem] at hbit
    have hcc : col = col0 := (singleBit_iff col0 col hcol hcol8).mp hbit
    subst hcc
    exact ⟨hr, hc⟩
  · rintro ⟨hr, hc⟩
    refine ⟨0, by omega, (cellHit_iff mem X Y iReg 0 r c).mpr ⟨?_, col0, hcol, hc, ?_⟩⟩
    · rw [Nat.add_zero]
      exact hr
    · rw [Nat.add_zero, hmem]
      exact (singleBit_iff col0 col0 hcol hcol).mpr rfl

theorem singleSprite_coll (mem : Nat → Nat) (s : Nat → Nat → Bool)
    (X Y iReg col0 : Nat) (hcol : col0 < 8) (hmem : mem iReg = 1 <<< (7 - col0)) :
    (∃ row, row < 1 ∧ rowColl mem s X Y iReg row) ↔
      s (Y % 32) ((X + col0) % 64) = true := by
  constructor
  · rintro ⟨row, hrow, hrc⟩
    interval_cases row
    obtain ⟨col, hcol8, hbit, hs⟩ := (rowColl_iff mem s X Y iReg 0).mp hrc
    rw [Nat.add_zero, hmem] at hbit
    rw [Nat.add_zero] at hs
    have hcc : col = col0 := (singleBit_iff col0 col hcol hcol8).mp hbit
    subst hcc
    exact hs
  · intro hs
    refine ⟨0, by omega, (rowColl_iff mem s X Y iReg 0).mpr ⟨col0, hcol, ?_, ?_⟩⟩
    · rw [Nat.add_zero, hmem]
      exact (singleBit_iff col0 col0 hcol hcol).mpr rfl
    · rw [Nat.add_zero]
      exact hs

/-- C6 counterexample: drawing the 1-bit sprite twice at the same coordinates
onto a cell that was initially *set* leaves VF = 0 after the second draw (the
first draw erases the cell and reports the collision; the second redraws a
clear cell), contradicting the claim that the second draw always leaves
VF = 1.  The cell does return to its original value. -/
theorem draw_twice_counterexample :
    c6p.screen 0 0 = true ∧
    ((Instruction.Draw 0 1 1).run c6p).isSome = true ∧
    (execOut (.Draw 0 1 1) c6p).v 0xF = 1 ∧
    ((Instruction.Draw 0 1 1).run (execOut (.Draw 0 1 1) c6p)).isSome = true ∧
    (execOut (.Draw 0 1 1) (execOut (.Draw 0 1 1) c6p)).screen 0 0 = true ∧
    (execOut (.Draw 0 1 1) (execOut (.Draw 0 1 1) c6p)).v 0xF = 0 := by
  decide

/-- C6 (amended): drawing the same 1-row, single-bit sprite twice at the same
coordinates (coordinate registers distinct from F) returns the whole display
— in particular the targeted cell — to its original value; the second draw
leaves VF = 1 exactly when the cell was originally clear, while an originally
set cell makes the *first* draw report the collision (VF = 1) and the second
draw leave VF = 0. -/
theorem draw_twice_spec (p : Program) (sx sy col0 : Nat)
    (hsx : sx ≠ 0xF) (hsy : sy ≠ 0xF) (hcol : col0 < 8)
    (hb : p.i + 1 ≤ 4096) (hmem : p.memory p.i = 1 <<< (7 - col0)) :
    ∃ p1 p2,
      (Instruction.Draw sx sy 1).run p = some (p1, .Next) ∧
      (Instruction.Draw sx sy 1).run p1 = some (p2, .Next) ∧
      (∀ r c, p2.screen r c = p.screen r c) ∧
      (p1.v 0xF = if p.screen (p.v sy % 32) ((p.v sx + col0) % 64) = true
        then 1 else 0) ∧
      (p2.v 0xF = if p.screen (p.v sy % 32) ((p.v sx + col0) % 64) = true
        then 0 else 1) := by
  obtain ⟨p1, h1run, h1mem, h1i, -, -, h1v, h1scr, h1vf⟩ :=
    draw_effect p sx sy 1 hsx hsy (by omega) hb
  have hb1 : p1.i + 1 ≤ 4096 := by
    rw [h1i]
    exact hb
  have hmem1 : p1.memory p1.i = 1 <<< (7 - col0) := by
    rw [h1mem, h1i]
    exact hmem
  obtain ⟨p2, h2run, h2mem, h2i, -, -, h2v, h2scr, h2vf⟩ :=
    draw_effect p1 sx sy 1 hsx hsy (by omega) hb1
  have hvx1 : p1.v sx = p.v sx := h1v sx hsx
  have hvy1 : p1.v sy = p.v sy := h1v sy hsy
  have hhitp : ∀ r c, spriteHit p sx sy 1 r c ↔
      (r = p.v sy % 32 ∧ c = (p.v sx + col0) % 64) :=
    fun r c => singleSprite_hit p.memory (p.v sx) (p.v sy) p.i col0 hcol hmem r c
  have hhitp1 : ∀ r c, spriteHit p1 sx sy 1 r c ↔
      (r = p.v sy % 32 ∧ c = (p.v sx + col0) % 64) := by
    intro r c
    show (∃ row, row < 1 ∧ cellHit p1.memory (p1.v sx) (p1.v sy) p1.i row r c) ↔ _
    rw [hvx1, hvy1]
    exact singleSprite_hit p1.memory (p.v sx) (p.v sy) p1.i col0 hcol hmem1 r c
  have hcollp : drawCollision p sx sy 1 ↔
      p.screen (p.v sy % 32) ((p.v sx + col0) % 64) = true :=
    singleSprite_coll p.memory p.screen (p.v sx) (p.v sy) p.i col0 hcol hmem
  have hcollp1 : drawCollision p1 sx sy 1 ↔
      p1.screen (p.v sy % 32) ((p.v sx + col0) % 64) = true := by
    show (∃ row, row < 1 ∧ rowColl p1.memory p1.screen (p1.v sx) (p1.v sy) p1.i row)
      ↔ _
    rw [hvx1, hvy1]
    exact singleSprite_coll p1.memory p1.screen (p.v sx) (p.v sy) p1.i col0 hcol hmem1
  have hscrval : p1.screen (p.v sy % 32) ((p.v sx + col0) % 64) =
      ! (p.screen (p.v sy % 32) ((p.v sx + col0) % 64)) := by
    rw [h1scr]
    rw [decide_eq_true ((hhitp (p.v sy % 32) ((p.v sx + col0) % 64)).mpr ⟨rfl, rfl⟩)]
    rw [Bool.xor_true]
  refine ⟨p1, p2, h1run, h2run, ?_, ?_, ?_⟩
  · intro r c
    rw [h2scr r c, h1scr r c, Bool.xor_assoc]
    have e : decide (spriteHit p1 sx sy 1 r c) = decide (spriteHit p sx sy 1 r c) :=
      decide_eq_decide.mpr ((hhitp1 r c).trans (hhitp r c).symm)
    rw [e, Bool.xor_self, Bool.xor_false]
  · rw [h1vf]
    exact if_congr hcollp rfl rfl
  · rw [h2vf]
    have hc1 : drawCollision p1 sx sy 1 ↔
        p.screen (p.v sy % 32) ((p.v sx + col0) % 64) = false := by
      rw [hcollp1, hscrval]
      cases p.screen (p.v sy % 32) ((p.v sx + col0) % 64) <;> simp
    rw [if_congr hc1 rfl rfl]
    cases p.screen (p.v sy % 32) ((p.v sx + col0) % 64) <;> simp

/-- Witness for C6's amended theorem at the concrete state `c6w`. -/
theorem draw_twice_spec_witness :
    ∃ p1 p2,
      (Instruction.Draw 0 1 1).run c6w = some (p1, .Next) ∧
      (Instruction.Draw 0 1 1).run p1 = some (p2, .Next) ∧
      (∀ r c, p2.screen r c = c6w.screen r c) ∧
      (p1.v 0xF = if c6w.screen (c6w.v 1 % 32) ((c6w.v 0 + 0) % 64) = true
        then 1 else 0) ∧
      (p2.v 0xF = if c6w.screen (c6w.v 1 % 32) ((c6w.v 0 + 0) % 64) = true
        then 0 else 1) :=
  draw_twice_spec c6w 0 1 0 (by decide) (by decide) (by decide) (by decide) (by decide)

end Chip8
